import Mathlib

/-!
Verification of `src/random_number.py`, a terminal number-guessing game.
The pure functions are embedded directly; console I/O is modelled by
explicit input lists and output lists of printed strings.  Python's
unbounded `int` is modelled by `Int`.
-/

namespace RandomNumber

/-- Difficulty levels with corresponding number of attempts
(`class Difficulty(Enum)`, src/random_number.py lines 6-9). -/
inductive Difficulty where
  | NORMAL
  | HARD
deriving DecidableEq

/-- Enum payload of `Difficulty`: `NORMAL = 10`, `HARD = 5`. -/
def Difficulty.value : Difficulty → Int
  | .NORMAL => 10
  | .HARD => 5

/-- Possible states of the game (`class GameState(Enum)`, lines 12-16). -/
inductive GameState where
  | PLAYING
  | WON
  | LOST
deriving DecidableEq

/-- Python's `.strip().lower()` normalisation applied to each input
line, modelled on the underlying character list: whitespace is removed
from both ends and every character is lowered. -/
def strip_lower (s : String) : String :=
  ⟨(((s.data.dropWhile Char.isWhitespace).reverse.dropWhile
      Char.isWhitespace).reverse).map Char.toLower⟩

/-- Embedding of `get_valid_input` (lines 19-34).  The interactive
re-prompt loop is modelled over an explicit list of successive input
lines: the function returns the first input whose stripped, lowered form
is in `valid_options`, and `none` when every supplied input is rejected
(the real loop would keep prompting forever). -/
def get_valid_input (valid_options : List String) : List String → Option String
  | [] => none
  | u :: rest =>
    if strip_lower u ∈ valid_options then some (strip_lower u)
    else get_valid_input valid_options rest

/-- Embedding of `validate_guess_range` (lines 37-49); the Python
defaults `min_val = 0`, `max_val = 100` are passed explicitly at the
call site. -/
def validate_guess_range (guess min_val max_val : Int) : Bool :=
  decide (min_val ≤ guess ∧ guess ≤ max_val)

/-- Embedding of `select_difficulty` (lines 52-67); the `print` calls
carry no state and are dropped. -/
def select_difficulty (difficulty_input : String) : Difficulty :=
  if difficulty_input = "0" then Difficulty.NORMAL
  else Difficulty.HARD

/-- Embedding of `check_guess` (lines 70-86). -/
def check_guess (target_number user_guess : Int) : String :=
  if user_guess > target_number then "too_high"
  else if user_guess < target_number then "too_low"
  else "correct"

/-- The glyph printed once per remaining attempt by `show_life_hearts`. -/
def heart : String := "❤ "

/-- Embedding of `show_life_hearts` (lines 89-98) as the list of glyphs
printed: `for _ in range(remaining_attempts)` prints `heart` once per
iteration, and `range` of a non-positive integer is empty. -/
def show_life_hearts (remaining_attempts : Int) : List String :=
  List.replicate remaining_attempts.toNat heart

/-- Embedding of `show_game_result` (lines 101-113) as the list of lines
printed. -/
def show_game_result (target_number : Int) (game_state : GameState) : List String :=
  match game_state with
  | .WON => ["Congratulations! You Win! 🎉"]
  | .LOST => ["The correct number was: " ++ toString target_number,
              "You Lose! Better luck next time! 💔"]
  | .PLAYING => []

/-- Embedding of `get_user_guess` (lines 116-131).  The result of
Python's `int(input(...))` is modelled as an `Option Int`: `none` when
`int` raises `ValueError` (malformed input), `some g` when the line
parses to the integer `g`.  The function then applies the range check
exactly as the source does. -/
def get_user_guess (parsed_input : Option Int) : Option Int :=
  match parsed_input with
  | none => none
  | some guess =>
    if validate_guess_range guess 0 100 then some guess
    else none

/-- One iteration of the main game loop body of `run_game` restricted to
its state update (lines 178-190), given the already-validated guess:
a correct guess wins without touching the counter; otherwise the counter
is decremented and the state becomes `LOST` exactly when the decremented
counter equals 0, else stays `PLAYING`. -/
def game_turn (target_number remaining_attempts user_guess : Int) : Int × GameState :=
  if check_guess target_number user_guess = "correct" then
    (remaining_attempts, GameState.WON)
  else if remaining_attempts - 1 = 0 then
    (remaining_attempts - 1, GameState.LOST)
  else
    (remaining_attempts - 1, GameState.PLAYING)

/-- Embedding of the `while game_state == GameState.PLAYING` loop of
`run_game` (lines 168-190) over an explicit list of parsed input lines
(one `Option Int` per call to `get_user_guess`).  Inputs rejected by
`get_user_guess` are skipped without touching the session (the inner
`while user_guess is None` loop); an accepted guess runs one
`game_turn`.  When the state is terminal the loop exits immediately. -/
def run_round (target_number : Int) : Int → GameState → List (Option Int) → Int × GameState
  | remaining, state, [] => (remaining, state)
  | remaining, state, inp :: rest =>
    if state = GameState.PLAYING then
      match get_user_guess inp with
      | none => run_round target_number remaining state rest
      | some g =>
        let step := game_turn target_number remaining g
        run_round target_number step.1 step.2 rest
    else (remaining, state)

/-- Session states reachable in a round of `run_game`: the counter is
initialised to the chosen difficulty's attempt budget (line 159) with
state `PLAYING` (line 162), and then evolves only by `game_turn` steps
taken from a `PLAYING` state. -/
inductive Reachable (target_number : Int) : Int → GameState → Prop
  | init (d : Difficulty) : Reachable target_number d.value GameState.PLAYING
  | step (remaining g : Int)
      (h : Reachable target_number remaining GameState.PLAYING) :
      Reachable target_number
        (game_turn target_number remaining g).1
        (game_turn target_number remaining g).2

/-- Invariant of reachable session states: the attempt counter is never
negative, and it is at least 1 whenever the state is still `PLAYING`. -/
theorem reachable_invariant (t r : Int) (s : GameState)
    (h : Reachable t r s) :
    0 ≤ r ∧ (s = GameState.PLAYING → 1 ≤ r) := by
  induction h with
  | init d =>
    cases d <;> exact ⟨by decide, fun _ => by decide⟩
  | step remaining g h ih =>
    have h1 : 1 ≤ remaining := ih.2 rfl
    unfold game_turn
    split
    · exact ⟨le_trans (by omega) h1, by intro hc; cases hc⟩
    · split
      · rename_i hz
        refine ⟨by omega, ?_⟩
        intro hc; cases hc
      · rename_i hz
        exact ⟨by omega, fun _ => by omega⟩

/-- Helper shared by several theorems: `check_guess` answers "correct"
exactly when the guess equals the target. -/
theorem check_guess_correct_iff (t g : Int) :
    check_guess t g = "correct" ↔ g = t := by
  unfold check_guess
  rcases lt_trichotomy g t with h | h | h
  · rw [if_neg (by omega), if_pos h]
    exact ⟨fun hc => absurd hc (by decide), fun hc => by omega⟩
  · rw [if_neg (by omega), if_neg (by omega)]
    exact ⟨fun _ => h, fun _ => rfl⟩
  · rw [if_pos h]
    exact ⟨fun hc => absurd hc (by decide), fun hc => by omega⟩

/-- C1: for every target `t` and guess `g`, `check_guess t g` returns
"correct" iff `g = t`, "too_high" iff `g > t`, and "too_low" iff
`g < t`; being a plain function of its two arguments, it is pure. -/
theorem check_guess_spec (t g : Int) :
    (check_guess t g = "correct" ↔ g = t) ∧
    (check_guess t g = "too_high" ↔ g > t) ∧
    (check_guess t g = "too_low" ↔ g < t) := by
  refine ⟨check_guess_correct_iff t g, ?_, ?_⟩
  all_goals unfold check_guess
  · rcases lt_trichotomy g t with h | h | h
    · rw [if_neg (by omega), if_pos h]
      exact ⟨fun hc => absurd hc (by decide), fun hc => by omega⟩
    · rw [if_neg (by omega), if_neg (by omega)]
      exact ⟨fun hc => absurd hc (by decide), fun hc => by omega⟩
    · rw [if_pos h]
      exact ⟨fun _ => h, fun _ => rfl⟩
  · rcases lt_trichotomy g t with h | h | h
    · rw [if_neg (by omega), if_pos h]
      exact ⟨fun _ => h, fun _ => rfl⟩
    · rw [if_neg (by omega), if_neg (by omega)]
      exact ⟨fun hc => absurd hc (by decide), fun hc => by omega⟩
    · rw [if_pos h]
      exact ⟨fun hc => absurd hc (by decide), fun hc => by omega⟩

/-- C2: one turn from `PLAYING` behaves as the specified advance step: a
correct guess yields `WON` with the counter unchanged (so target 42 and
guess 42 win immediately); an incorrect guess decrements the counter and
the resulting state is `LOST` exactly when the counter reaches 0, else
`PLAYING`; these are the only transitions (the result state is `WON` iff
the guess is correct), and terminal states are never left: the loop
performs no further step from `WON` or `LOST`. -/
theorem game_turn_transitions (t r g : Int) (s : GameState)
    (inputs : List (Option Int)) :
    (g = t → game_turn t r g = (r, GameState.WON)) ∧
    (g ≠ t →
      (game_turn t r g).1 = r - 1 ∧
      ((game_turn t r g).2 = GameState.LOST ↔ r - 1 = 0) ∧
      ((game_turn t r g).2 = GameState.PLAYING ↔ r - 1 ≠ 0)) ∧
    ((game_turn t r g).2 = GameState.WON ↔ g = t) ∧
    game_turn 42 r 42 = (r, GameState.WON) ∧
    (s ≠ GameState.PLAYING → run_round t r s inputs = (r, s)) := by
  have hc : ∀ a b : Int, (check_guess a b = "correct" ↔ b = a) :=
    fun a b => check_guess_correct_iff a b
  refine ⟨?_, ?_, ?_, ?_, ?_⟩
  · intro hg
    unfold game_turn
    rw [if_pos ((hc t g).2 hg)]
  · intro hg
    unfold game_turn
    rw [if_neg (fun hx => hg ((hc t g).1 hx))]
    split
    · rename_i hz
      exact ⟨rfl, ⟨fun _ => hz, fun _ => rfl⟩,
        ⟨fun hx => absurd hx (by simp), fun hx => absurd hz hx⟩⟩
    · rename_i hz
      exact ⟨rfl, ⟨fun hx => absurd hx (by simp), fun hx => absurd hx hz⟩,
        ⟨fun _ => hz, fun _ => rfl⟩⟩
  · unfold game_turn
    split
    · rename_i hx
      exact ⟨fun _ => (hc t g).1 hx, fun _ => rfl⟩
    · rename_i hx
      constructor
      · intro hw
        split at hw
        · cases hw
        · cases hw
      · intro hg
        exact absurd ((hc t g).2 hg) hx
  · unfold game_turn
    rw [if_pos ((hc 42 42).2 rfl)]
  · intro hs
    cases inputs with
    | nil => rfl
    | cons x xs =>
      unfold run_round
      rw [if_neg hs]

/-- Closed witness for C2, discharging each hypothesis at concrete
inputs: a correct guess (42 against target 42) wins with the counter
unchanged, an incorrect guess (7 against 42) from 10 attempts leaves 9
attempts in state `PLAYING`, and the loop does not move from `WON`. -/
theorem game_turn_transitions_witness :
    game_turn 42 10 42 = (10, GameState.WON) ∧
    (game_turn 42 10 7).1 = 9 ∧
    (game_turn 42 10 7).2 = GameState.PLAYING ∧
    run_round 42 10 GameState.WON [some 3] = (10, GameState.WON) := by
  have h := game_turn_transitions 42 10 7 GameState.WON [some 3]
  have hcorrect := (game_turn_transitions 42 10 42 GameState.WON []).2.2.2.1
  have hwrong := h.2.1 (by omega)
  refine ⟨hcorrect, by rw [hwrong.1]; norm_num, ?_, h.2.2.2.2 (by decide)⟩
  exact (hwrong.2.2).2 (by omega)

/-- C3: in every reachable session state the attempt counter is
non-negative, and from any reachable `PLAYING` state a turn with a
non-correct guess decreases the counter by exactly 1 and leaves it
non-negative. -/
theorem attempts_decrease_and_nonneg (t r g : Int) (s : GameState)
    (h : Reachable t r s) :
    0 ≤ r ∧
    (s = GameState.PLAYING → g ≠ t →
      (game_turn t r g).1 = r - 1 ∧ 0 ≤ (game_turn t r g).1) := by
  have hinv := reachable_invariant t r s h
  refine ⟨hinv.1, fun hs hg => ?_⟩
  have h1 : 1 ≤ r := hinv.2 hs
  have hdec : (game_turn t r g).1 = r - 1 := by
    unfold game_turn
    rw [if_neg (fun hx => hg ((check_guess_correct_iff t g).mp hx))]
    split <;> rfl
  exact ⟨hdec, by rw [hdec]; omega⟩

/-- Closed witness for C3: the initial NORMAL state (10 attempts,
`PLAYING`) is reachable, its counter is non-negative, and a wrong guess
of 7 against target 42 takes it to 9, still non-negative. -/
theorem attempts_decrease_and_nonneg_witness :
    0 ≤ (10 : Int) ∧
    (game_turn 42 10 7).1 = 10 - 1 ∧ 0 ≤ (game_turn 42 10 7).1 := by
  have h := attempts_decrease_and_nonneg 42 10 7 GameState.PLAYING
    (Reachable.init Difficulty.NORMAL)
  exact ⟨h.1, h.2 rfl (by omega)⟩

/-- C4: under the precondition that the difficulty choice is "0" or "1",
`select_difficulty` maps "0" to `NORMAL` and "1" to `HARD`, and the
initial attempt budget read from the chosen difficulty is 10 for
`NORMAL` and 5 for `HARD`. -/
theorem select_difficulty_budget (choice : String)
    (h : choice = "0" ∨ choice = "1") :
    (choice = "0" →
      select_difficulty choice = Difficulty.NORMAL ∧
      (select_difficulty choice).value = 10) ∧
    (choice = "1" →
      select_difficulty choice = Difficulty.HARD ∧
      (select_difficulty choice).value = 5) := by
  refine ⟨fun h0 => ?_, fun h1 => ?_⟩
  · subst h0
    exact ⟨rfl, rfl⟩
  · subst h1
    exact ⟨rfl, rfl⟩

/-- Closed witness for C4 at both allowed choices. -/
theorem select_difficulty_budget_witness :
    (select_difficulty "0" = Difficulty.NORMAL ∧
      (select_difficulty "0").value = 10) ∧
    (select_difficulty "1" = Difficulty.HARD ∧
      (select_difficulty "1").value = 5) :=
  ⟨(select_difficulty_budget "0" (Or.inl rfl)).1 rfl,
   (select_difficulty_budget "1" (Or.inr rfl)).2 rfl⟩

/-- C5: a malformed input (no parsed integer) and an out-of-range
integer such as 150 both make `get_user_guess` return `none`; a parsed
guess `g` is accepted iff `0 ≤ g ≤ 100`; and within the game loop a
rejected input is simply skipped, leaving the attempt counter and the
rest of the session state unchanged for the re-prompt. -/
theorem guess_rejection_spec (g t r : Int) (inp : Option Int)
    (rest : List (Option Int)) (hbad : get_user_guess inp = none) :
    get_user_guess none = none ∧
    get_user_guess (some 150) = none ∧
    (get_user_guess (some g) = some g ↔ 0 ≤ g ∧ g ≤ 100) ∧
    run_round t r GameState.PLAYING (inp :: rest) =
      run_round t r GameState.PLAYING rest := by
  refine ⟨rfl, by decide, ?_, ?_⟩
  · rcases Classical.em (0 ≤ g ∧ g ≤ 100) with hp | hp
    · simp [get_user_guess, validate_guess_range, hp]
    · simp [get_user_guess, validate_guess_range, hp]
  · simp [run_round, hbad]

/-- Closed witness for C5: the malformed input `none` is rejected and
skipping it leaves the session (target 42, 10 attempts, `PLAYING`)
untouched; 150 is rejected while 50 is accepted. -/
theorem guess_rejection_spec_witness :
    get_user_guess none = none ∧
    get_user_guess (some 150) = none ∧
    get_user_guess (some 50) = some 50 ∧
    run_round 42 10 GameState.PLAYING [none, some 42] =
      run_round 42 10 GameState.PLAYING [some 42] := by
  have h := guess_rejection_spec 50 42 10 none [some 42] rfl
  exact ⟨h.1, h.2.1, h.2.2.1.2 (by omega), h.2.2.2⟩

/-- Helper for C6: from a `PLAYING` state whose attempt counter equals
the number of supplied guesses, a run in which every guess is in range
but wrong ends with counter 0 in state `LOST`. -/
theorem run_round_all_wrong (guesses : List Int) :
    ∀ (t r : Int), r = (guesses.length : Int) → 1 ≤ r →
    (∀ g ∈ guesses, g ≠ t) → (∀ g ∈ guesses, 0 ≤ g ∧ g ≤ 100) →
    run_round t r GameState.PLAYING (guesses.map some) = (0, GameState.LOST) := by
  induction guesses with
  | nil =>
    intro t r hr h1 _ _
    simp at hr
    omega
  | cons g gs ih =>
    intro t r hr h1 hw hrange
    have hacc : get_user_guess (some g) = some g := by
      have hg := hrange g (List.mem_cons_self g gs)
      simp [get_user_guess, validate_guess_range, hg]
    have hnc : check_guess t g ≠ "correct" := fun hx =>
      hw g (List.mem_cons_self g gs) ((check_guess_correct_iff t g).mp hx)
    have hstep : run_round t r GameState.PLAYING ((g :: gs).map some) =
        run_round t (game_turn t r g).1 (game_turn t r g).2 (gs.map some) := by
      simp [run_round, hacc]
    rw [hstep]
    by_cases hz : r - 1 = 0
    · have hgt : game_turn t r g = (r - 1, GameState.LOST) := by
        unfold game_turn
        rw [if_neg hnc, if_pos hz]
      have hgs : gs = [] := by
        rw [List.length_cons] at hr
        have : gs.length = 0 := by omega
        exact List.length_eq_zero.mp this
      rw [hgt, hgs]
      show (r - 1, GameState.LOST) = (0, GameState.LOST)
      rw [hz]
    · have hgt : game_turn t r g = (r - 1, GameState.PLAYING) := by
        unfold game_turn
        rw [if_neg hnc, if_neg hz]
      rw [hgt]
      have hlen : r - 1 = (gs.length : Int) := by
        rw [List.length_cons] at hr
        omega
      exact ih t (r - 1) hlen (by omega)
        (fun x hx => hw x (List.mem_cons_of_mem g hx))
        (fun x hx => hrange x (List.mem_cons_of_mem g hx))

/-- C6: a round started at NORMAL difficulty (10 attempts) in which the
player submits 10 consecutive accepted-but-wrong guesses ends in state
`LOST`; the final report prints a line naming the target exactly on a
loss: the `LOST` output contains the line stating the target, while the
`WON` output is the same fixed text whatever the target is. -/
theorem normal_ten_wrong_loses (t : Int) (guesses : List Int)
    (hlen : guesses.length = 10)
    (hrange : ∀ g ∈ guesses, 0 ≤ g ∧ g ≤ 100)
    (hwrong : ∀ g ∈ guesses, g ≠ t) :
    (run_round t Difficulty.NORMAL.value GameState.PLAYING
        (guesses.map some)).2 = GameState.LOST ∧
    ("The correct number was: " ++ toString t) ∈
      show_game_result t GameState.LOST ∧
    (∀ u v : Int,
      show_game_result u GameState.WON = show_game_result v GameState.WON) := by
  have hr : Difficulty.NORMAL.value = (guesses.length : Int) := by
    rw [hlen]
    rfl
  have hrun := run_round_all_wrong guesses t Difficulty.NORMAL.value hr
    (by rw [hr, hlen]; norm_num) hwrong hrange
  refine ⟨by rw [hrun], ?_, fun u v => rfl⟩
  simp [show_game_result]

/-- Closed witness for C6: against target 42, ten accepted guesses of 0
lose the round, and the `LOST` report contains the line revealing 42. -/
theorem normal_ten_wrong_loses_witness :
    (run_round 42 Difficulty.NORMAL.value GameState.PLAYING
        ((List.replicate 10 (0 : Int)).map some)).2 = GameState.LOST ∧
    ("The correct number was: " ++ toString (42 : Int)) ∈
      show_game_result 42 GameState.LOST := by
  have h := normal_ten_wrong_loses 42 (List.replicate 10 (0 : Int))
    (by simp)
    (fun g hg => by rw [List.eq_of_mem_replicate hg]; omega)
    (fun g hg => by rw [List.eq_of_mem_replicate hg]; omega)
  exact ⟨h.1, h.2.1⟩

/-- Helper for C7: any value returned by `get_valid_input` is a member
of its `valid_options` list. -/
theorem get_valid_input_mem (opts : List String) :
    ∀ (inputs : List String) (s : String),
      get_valid_input opts inputs = some s → s ∈ opts := by
  intro inputs
  induction inputs with
  | nil =>
    intro s h
    cases h
  | cons x xs ih =>
    intro s h
    by_cases hx : strip_lower x ∈ opts
    · rw [get_valid_input, if_pos hx] at h
      cases h
      exact hx
    · rw [get_valid_input, if_neg hx] at h
      exact ih s h

/-- Helper for C7: when no supplied input matches after trimming and
lowering, `get_valid_input` accepts nothing (the real loop re-prompts
indefinitely). -/
theorem get_valid_input_none (opts : List String) :
    ∀ inputs : List String,
      (∀ x ∈ inputs, strip_lower x ∉ opts) →
      get_valid_input opts inputs = none := by
  intro inputs
  induction inputs with
  | nil =>
    intro _
    rfl
  | cons x xs ih =>
    intro h
    rw [get_valid_input, if_neg (h x (List.mem_cons_self x xs))]
    exact ih (fun y hy => h y (List.mem_cons_of_mem x hy))

/-- C7: interactive choices go through `get_valid_input`, which compares
each input stripped of surrounding whitespace and lowered: an input
whose normalised form is in the option list is accepted as that
normalised value, an accepted value is always a member of the option
list, and when every input fails to match nothing is ever accepted (the
loop re-prompts indefinitely); a guess input rejected by
`get_user_guess` is likewise re-prompted, the loop skipping it without
changing the session. -/
theorem input_contract_spec (opts inputs : List String) (u : String)
    (inp : Option Int) (rest : List (Option Int)) (t r : Int)
    (hu : strip_lower u ∈ opts) (hbad : get_user_guess inp = none) :
    (∀ s, get_valid_input opts inputs = some s → s ∈ opts) ∧
    ((∀ x ∈ inputs, strip_lower x ∉ opts) →
      get_valid_input opts inputs = none) ∧
    get_valid_input opts (u :: inputs) = some (strip_lower u) ∧
    run_round t r GameState.PLAYING (inp :: rest) =
      run_round t r GameState.PLAYING rest := by
  refine ⟨get_valid_input_mem opts inputs, get_valid_input_none opts inputs,
    ?_, ?_⟩
  · rw [get_valid_input, if_pos hu]
  · simp [run_round, hbad]

/-- Closed witness for C7: with options `["y", "n"]`, the padded
upper-case input `" N "` is accepted as `"n"`, which is in the options;
mismatching inputs are never accepted; a malformed guess is skipped
without touching the session. -/
theorem input_contract_spec_witness :
    get_valid_input ["y", "n"] [" N ", "maybe", "x"] = some "n" ∧
    ("n" ∈ ["y", "n"]) ∧
    get_valid_input ["y", "n"] ["maybe", "x"] = none ∧
    run_round 42 10 GameState.PLAYING [none, some 42] =
      run_round 42 10 GameState.PLAYING [some 42] := by
  have h := input_contract_spec ["y", "n"] ["maybe", "x"] " N " none [some 42]
    42 10 (by decide) rfl
  refine ⟨?_, by decide, h.2.1 (by decide), h.2.2.2⟩
  have hx := h.2.2.1
  rw [show strip_lower " N " = "n" from by decide] at hx
  exact hx

/-- C8: for every non-negative attempt count `n`, the indicator printed
before a guess consists of exactly `n` glyphs, each one the heart glyph
(one heart per remaining attempt). -/
theorem hearts_count (n : Int) (h : 0 ≤ n) :
    ((show_life_hearts n).length : Int) = n ∧
    ∀ x ∈ show_life_hearts n, x = heart := by
  constructor
  · simp [show_life_hearts]
    omega
  · intro x hx
    exact List.eq_of_mem_replicate hx

/-- Closed witness for C8 at `n = 3`. -/
theorem hearts_count_witness :
    ((show_life_hearts 3).length : Int) = 3 ∧
    ∀ x ∈ show_life_hearts 3, x = heart :=
  hearts_count 3 (by omega)

/-- C9: `select_difficulty` returns `NORMAL` exactly for the input
string "0"; every other string, including strings outside the validated
set, is mapped to `HARD` — the function is total, with no rejection
branch. -/
theorem select_difficulty_default_hard (s : String) :
    (select_difficulty s = Difficulty.NORMAL ↔ s = "0") ∧
    (s ≠ "0" → select_difficulty s = Difficulty.HARD) := by
  unfold select_difficulty
  by_cases h : s = "0"
  · simp [h]
  · simp [h]

/-- Closed witness for C9: "0" yields `NORMAL` while "1" and the
unvalidated string "abc" both yield `HARD`. -/
theorem select_difficulty_default_hard_witness :
    select_difficulty "0" = Difficulty.NORMAL ∧
    select_difficulty "1" = Difficulty.HARD ∧
    select_difficulty "abc" = Difficulty.HARD :=
  ⟨(select_difficulty_default_hard "0").1.mpr rfl,
   (select_difficulty_default_hard "1").2 (by decide),
   (select_difficulty_default_hard "abc").2 (by decide)⟩

/-- C10: every reachable session state that is still `PLAYING` has at
least one attempt remaining: the counter starts at 10 or 5, and any
decrement that brings it to 0 simultaneously sets the state to `LOST`,
so the guess prompt is never reached with zero attempts. -/
theorem playing_has_attempts (t r : Int)
    (h : Reachable t r GameState.PLAYING) : 1 ≤ r :=
  (reachable_invariant t r GameState.PLAYING h).2 rfl

/-- Closed witness for C10: the initial HARD state is reachable with 5
attempts, and the theorem yields `1 ≤ 5`. -/
theorem playing_has_attempts_witness : 1 ≤ (5 : Int) :=
  playing_has_attempts 42 5 (Reachable.init Difficulty.HARD)

end RandomNumber
